import Mathlib

/-! Formal model of the MyOpenCV width-measurement application.

The definitions below are shallow embeddings of the Python sources
`utils/notifications.py`, `utils/http.py`, `camera/camera.py` and `main.py`.
Machine integers are modelled as `Nat`/`Int`, wall-clock timestamps and
millimetre lengths as `ℚ`, Python dictionaries as association lists, and the
outcome of every outbound HTTP delivery as an explicit boolean oracle input.
-/

/-- Per-category error state, the values of `NotificationManager._error_state`
in `utils/notifications.py`: an occurrence counter and an active flag. -/
structure CatState where
  count : Nat
  active : Bool
deriving Repr, DecidableEq, Inhabited

/-- State of a `NotificationManager` instance (`utils/notifications.py`):
the rate-limit configuration, the deque of send timestamps (oldest first) and
the per-category error states. -/
structure NotifierState where
  max_messages_per_period : Nat
  period_seconds : ℚ
  sent_times : List ℚ
  error_state : List (String × CatState)
deriving Repr, DecidableEq

/-- The module-level `notifier = NotificationManager()` instance: default cap
of 20 messages per rolling 60-second window, empty history. -/
def initialNotifier : NotifierState := ⟨20, 60, [], []⟩

/-- In-place update of one key of the `_error_state` dictionary. -/
def upsertCat : List (String × CatState) → String → CatState → List (String × CatState)
  | [], k, v => [(k, v)]
  | (k', v') :: rest, k, v =>
    if k' = k then (k, v) :: rest else (k', v') :: upsertCat rest k v

/-- Characters removed by Python's `str.strip()` (the ASCII ones; the messages
in this code base contain no exotic unicode whitespace). -/
def isStripSpace (c : Char) : Bool :=
  c = ' ' || c = '\t' || c = '\n' || c = '\r' || c = '\x0b' || c = '\x0c'

/-- `NotificationManager._truncate_message`: strip the message, keep it intact
up to 180 characters, otherwise cut to 177 characters plus an ellipsis.
Python strings are modelled through their character lists. -/
def truncate_message (message : String) : String :=
  let chars := ((message.toList.dropWhile isStripSpace).reverse.dropWhile isStripSpace).reverse
  if chars.length ≤ 180 then String.mk chars
  else String.mk (chars.take 177) ++ "..."

/-- The pruning `while` loop at the top of `_can_send_locked`: pop deque
entries strictly older than `period_seconds`. -/
def prune_times (s : NotifierState) (now : ℚ) : List ℚ :=
  s.sent_times.dropWhile (fun t => decide (s.period_seconds < now - t))

/-- `NotificationManager._send_locked`.  `http_ok` is the outcome of the
outbound `requests.post` (the oracle of the environment); the two `time.time()`
readings of one call are modelled as the single instant `now`.  The timestamp
is recorded only on a successful delivery, exactly as in the source. -/
def send_locked (s : NotifierState) (webhook_url message : String) (now : ℚ)
    (http_ok : Bool) : NotifierState × Bool :=
  if webhook_url = "" ∨ message = "" then (s, false)
  else
    let pruned := prune_times s now
    if pruned.length < s.max_messages_per_period then
      if http_ok then ({ s with sent_times := pruned ++ [now] }, true)
      else ({ s with sent_times := pruned }, false)
    else ({ s with sent_times := pruned }, false)

/-- The message selection inside `notify_error`: the base message on the first
occurrence, the escalated wording when the counter reaches `escalate_after`
(and that bound is positive), nothing otherwise. -/
def error_message_for (base : String) (count escalate_after : Nat) : Option String :=
  if count = 1 then some base
  else if 0 < escalate_after ∧ count = escalate_after then
    some (base ++ ("（连续" ++ toString count ++ "次，请尽快排查）"))
  else none

/-- The per-category state as read by `setdefault(category, {"count": 0,
"active": False})`. -/
def catStateOf (s : NotifierState) (category : String) : CatState :=
  (List.lookup category s.error_state).getD ⟨0, false⟩

/-- `NotificationManager.notify_error`: increment the per-category counter,
mark the category active, then send on the first occurrence or at the
escalation point only. -/
def notify_error (s : NotifierState) (category webhook_url base_message : String)
    (escalate_after : Nat) (now : ℚ) (http_ok : Bool) : NotifierState × Bool :=
  match error_message_for (truncate_message base_message)
      ((catStateOf s category).count + 1) escalate_after with
  | some m =>
      send_locked
        { s with
          error_state :=
            upsertCat s.error_state category ⟨(catStateOf s category).count + 1, true⟩ }
        webhook_url m now http_ok
  | none =>
      ({ s with
          error_state :=
            upsertCat s.error_state category ⟨(catStateOf s category).count + 1, true⟩ },
        false)

/-- `NotificationManager.notify_recovery`: only an active category sends; the
category state is reset to `{0, false}` before the delivery attempt. -/
def notify_recovery (s : NotifierState) (category webhook_url message : String)
    (now : ℚ) (http_ok : Bool) : NotifierState × Bool :=
  match List.lookup category s.error_state with
  | none => (s, false)
  | some st =>
    if st.active then
      let s' := { s with error_state := upsertCat s.error_state category ⟨0, false⟩ }
      send_locked s' webhook_url (truncate_message message) now http_ok
    else (s, false)

/-- Sequence of `notify_error` calls for one fixed category, fed with the
timestamp and delivery outcome of each call; returns the final state and the
boolean results in call order. -/
def notify_error_run (category webhook_url base_message : String)
    (escalate_after : Nat) : NotifierState → List (ℚ × Bool) → NotifierState × List Bool
  | s, [] => (s, [])
  | s, (now, ok) :: rest =>
    let step := notify_error s category webhook_url base_message escalate_after now ok
    let next := notify_error_run category webhook_url base_message escalate_after step.1 rest
    (next.1, step.2 :: next.2)

/-- One raw send attempt as it reaches `_send_locked` (any category). -/
structure SendAttempt where
  webhook_url : String
  message : String
  now : ℚ
  http_ok : Bool
deriving Repr, DecidableEq

/-- Sequence of raw send attempts through `_send_locked`. -/
def send_run : NotifierState → List SendAttempt → NotifierState × List Bool
  | s, [] => (s, [])
  | s, a :: rest =>
    let step := send_locked s a.webhook_url a.message a.now a.http_ok
    let next := send_run step.1 rest
    (next.1, step.2 :: next.2)

/-- Timestamps of the attempts that were actually transmitted. -/
def transmitted_times (attempts : List SendAttempt) (results : List Bool) : List ℚ :=
  ((attempts.zip results).filter (fun p => p.2)).map (fun p => p.1.now)

/-- Number of the given timestamps falling inside the closed window
`[x, x + period]`. -/
def window_count (x period : ℚ) (times : List ℚ) : Nat :=
  (times.filter (fun t => decide (x ≤ t ∧ t ≤ x + period))).length

/-- Number of sends `notify_error` can still perform for a category whose
counter is `c`: one at the first occurrence, one at the escalation point. -/
def future_sends (c escalate_after : Nat) : Nat :=
  (if c = 0 then 1 else 0) + (if c < escalate_after then 1 else 0)

/-- Expected result sequence of a burst of `notify_error` calls started at
counter value `c`. -/
def burst_spec (c escalate_after : Nat) : Nat → List Bool
  | 0 => []
  | n + 1 =>
    decide (c + 1 = 1 ∨ c + 1 = escalate_after) :: burst_spec (c + 1) escalate_after n

/-- Column indices of the bright pixels of one row, in increasing order
(`np.where(row == 255)[0]` in `camera/camera.py`). -/
def brightIndices (row : List Bool) : List Nat :=
  (List.range row.length).filter (fun i => row.getD i false)

/-- The edge-noise margin `int(width * 0.05)` of `camera/camera.py` (line 70).
For every natural width this equals `width / 20`: the double `0.05` is
slightly above 1/20, so the product never drops below `width/20`, yet stays
short of the next integer, hence `int` truncation yields the floor. -/
def marginOf (width : Nat) : Nat := width / 20

/-- The margin filter of `camera/camera.py` (line 71): keep exactly the
indices `i` with `margin ≤ i ≤ width - margin`. -/
def marginFilter (width : Nat) (idx : List Nat) : List Nat :=
  idx.filter (fun i => decide (marginOf width ≤ i ∧ i ≤ width - marginOf width))

/-- The margin the spec text prescribes instead: `⌈0.05·width⌉` — written from
the spec sentence, for comparison with the code's `marginOf`. -/
def ceilMargin (width : Nat) : Nat := (width + 19) / 20

/-- The margin filter as worded by the spec (ceiling margin), for
comparison with the code's `marginFilter`. -/
def marginFilterCeil (width : Nat) (idx : List Nat) : List Nat :=
  idx.filter (fun i => decide (ceilMargin width ≤ i ∧ i ≤ width - ceilMargin width))

/-- Partition a sorted index list into maximal runs of consecutive values:
`np.split(xs, np.where(np.diff(xs) > 1)[0] + 1)` — a gap greater than 1
starts a new run (`camera/camera.py` lines 77–78). -/
def splitRuns : List Nat → List (List Nat)
  | [] => []
  | [i] => [[i]]
  | i :: j :: rest =>
    match splitRuns (j :: rest) with
    | [] => [[i]]
    | r :: rs => if j - i ≤ 1 then (i :: r) :: rs else [i] :: r :: rs

/-- `max(segments, key=len)`: Python's `max` keeps the first maximum under the
key, replacing only on a strictly greater length (`camera/camera.py`
line 81). -/
def maxByLen (segs : List (List Nat)) : Option (List Nat) :=
  match segs with
  | [] => none
  | r :: rs =>
    some (rs.foldl (fun best cur => if best.length < cur.length then cur else best) r)

/-- Bright-run search on a single row (`camera/camera.py` lines 63–96):
margin-filter the bright indices, split them into consecutive runs and return
the first and last index of the longest one; `none` when nothing survives. -/
def locateOnRow (width : Nat) (row : List Bool) : Option (Nat × Nat) :=
  match maxByLen (splitRuns (marginFilter width (brightIndices row))) with
  | none => none
  | some run => some (run.headD 0, run.getLastD 0)

/-- A binary frame: a width and the rows of bright/dark pixels.  Invariant of
the spec's data model: every row has length `width`. -/
structure Frame where
  width : Nat
  rows : List (List Bool)
deriving Repr, DecidableEq

/-- Result of the Segment Locator: bounds of the chosen run and the row the
search settled on. -/
structure LocateResult where
  start : Nat
  stop : Nat
  row : Nat
deriving Repr, DecidableEq

/-- Modelled from the spec: the outward row search order of the Segment
Locator.  The current searching `getImage` of `camera/camera.py` is missing
from the sources — `main.py` imports `CameraProcessingError` and passes
`line_position_ratio`, neither of which the shipped legacy `camera.py` has —
so the order is taken from the spec: the nominal row first, then offsets
`+1, -1, +2, -2, …` bounded by the frame height and clipped at the edges,
never wrapping. -/
def rowSearchOrder (height nominal : Nat) : List Nat :=
  nominal :: (List.range height).flatMap (fun d =>
    (if nominal + (d + 1) < height then [nominal + (d + 1)] else [])
      ++ (if d + 1 ≤ nominal then [nominal - (d + 1)] else []))

/-- Step 1 of the spec's locate: clamp the nominal row into `[0, height-1]`. -/
def clampRow (height : Nat) (nominal : Int) : Nat :=
  (max 0 (min nominal ((height : Int) - 1))).toNat

/-- Modelled from the spec: `locate(binary_frame, nominal_row)` of the Segment
Locator (the searching `getImage` is missing from the sources; its per-row
processing is the legacy code's, `locateOnRow`).  The first row of the
outward search order with a usable bright run wins; `none` is the spec's
`NoSegmentFound`. -/
def locate (f : Frame) (nominal : Int) : Option LocateResult :=
  (rowSearchOrder f.rows.length (clampRow f.rows.length nominal)).findSome? (fun r =>
    match locateOnRow f.width (f.rows.getD r []) with
    | some p => some ⟨p.1, p.2, r⟩
    | none => none)

/-- `AppState.update_detection_line_ratio` (`main.py` lines 149–155): a failed
`float()` conversion (modelled as `none`) falls back to `0.6`; the value is
then clamped into `[0, 1]`. -/
def update_detection_line_ratio (ratio : Option ℚ) : ℚ :=
  max 0 (min 1 (match ratio with | none => (0.6 : ℚ) | some v => v))

/-- Modelled from the spec: the ratio resolution inside the Measurement
Pipeline (the `getImage` consuming `line_position_ratio` is missing from the
sources): clamp to `[0, 1]`, default `0.6` when unspecified or invalid. -/
def resolveLineRatio (ratio : Option ℚ) : ℚ :=
  match ratio with
  | none => (0.6 : ℚ)
  | some v => max 0 (min 1 v)

/-- Modelled from the spec: the nominal scan row
`round(ratio · (cropped_height − 1))`. -/
def nominalScanRow (croppedHeight : Nat) (ratio : Option ℚ) : Int :=
  round (resolveLineRatio ratio * ((croppedHeight : ℚ) - 1))

/-- The vertical middle-half crop `img[segment_height : 3*segment_height]`
with `segment_height = height // 4` (`camera/camera.py` lines 41–49). -/
def cropMiddle (rows : List (List Nat)) : List (List Nat) :=
  (rows.drop (rows.length / 4)).take (2 * (rows.length / 4))

/-- `cv2.threshold(gray, 90, 255, THRESH_BINARY)` (`camera/camera.py`
line 56): a pixel strictly above the threshold becomes bright. -/
def binarize (rows : List (List Nat)) : List (List Bool) :=
  rows.map (fun r => r.map (fun v => decide (90 < v)))

/-- The Measurement record of the pipeline (spec section 3); the overlay is
carried as the binary frame together with the optional failure banner drawn
onto it. -/
structure Measurement where
  pixel_length : Nat
  overlay : Frame
  status_banner : Option String
deriving Repr, DecidableEq

/-- Modelled from the spec: `measure(frame, line_position_ratio)` of the
Measurement Pipeline (the failure-tolerant `getImage` is missing from the
sources).  Crop, binarize, resolve the scan row, locate the segment; a
locator failure degrades to `pixel_length = 0` with a status banner instead
of propagating an error. -/
def measureFrame (raw : List (List Nat)) (width : Nat) (ratio : Option ℚ) : Measurement :=
  match locate ⟨width, binarize (cropMiddle raw)⟩
      (nominalScanRow (binarize (cropMiddle raw)).length ratio) with
  | some res => ⟨res.stop - res.start + 1, ⟨width, binarize (cropMiddle raw)⟩, none⟩
  | none => ⟨0, ⟨width, binarize (cropMiddle raw)⟩, some "过滤噪点后没有剩余白色像素"⟩

/-- Failure classes of the frame fetch as `ThirdPage._update_data_loop`
distinguishes them (`main.py` lines 615–634). -/
inductive CameraError
  | processing (message : String)
  | unknown (message : String)
deriving Repr, DecidableEq

/-- What one iteration of `ThirdPage._update_data_loop` decides to do next. -/
inductive LoopAction
  | statusWait (status : String)
  | measurementHandled (lengthMm : ℚ) (lengthPx : Nat)
deriving Repr, DecidableEq

/-- One iteration of `ThirdPage._update_data_loop` (`main.py` lines 603–645)
after the fetch: failures and a zero pixel length set a status line and wait
for the next cycle — the loop keeps running — while positive lengths are
handed to `_handle_measurement` as millimetres (`length_px * rate`). -/
def update_data_step (fetched : Except CameraError Nat) (rate : ℚ) : LoopAction :=
  match fetched with
  | .error (.processing m) => .statusWait ("图像采集失败: " ++ m)
  | .error (.unknown m) => .statusWait ("未知错误: " ++ m)
  | .ok px =>
    if px = 0 then .statusWait "未检测到白色区域"
    else .measurementHandled ((px : ℚ) * rate) px

/-- State of `ThirdPage.inflate_button`: not yet created, clickable, or
disabled while a request is in flight. -/
inductive ButtonState
  | absent
  | normal
  | disabled
deriving Repr, DecidableEq

/-- The monitoring state carried by `ThirdPage` (`main.py`): monitoring flag,
threshold, debounce counter, width-alert flag, inflate button and whether the
inflator host is configured.  Notifier calls do not feed back into this state
and are tracked by the Notifier model. -/
structure MonitorState where
  is_monitoring : Bool
  threshold : Option ℚ
  trigger_count : Nat
  width_alert_active : Bool
  inflate_button : ButtonState
  inflator_configured : Bool
deriving Repr, DecidableEq

/-- `ThirdPage.handle_inflate` (`main.py` lines 693–721): no button → no-op;
no configured inflator host → re-enable the button, notify, no request;
otherwise disable the button and dispatch the HTTP request (result `true`
means a corrective request went out). -/
def handle_inflate (s : MonitorState) : MonitorState × Bool :=
  match s.inflate_button with
  | .absent => (s, false)
  | _ =>
    if s.inflator_configured then ({ s with inflate_button := .disabled }, true)
    else ({ s with inflate_button := .normal }, false)

/-- `ThirdPage._trigger_inflate` (`main.py` lines 671–691): create the button
if needed, then fire `handle_inflate` unless the button is disabled (the
in-flight guard). -/
def trigger_inflate (s : MonitorState) : MonitorState × Bool :=
  let s1 := if s.inflate_button = .absent then { s with inflate_button := .normal } else s
  if s1.inflate_button ≠ .disabled then handle_inflate s1 else (s1, false)

/-- `ThirdPage._handle_measurement` (`main.py` lines 647–669): a
below-threshold measurement bumps the debounce counter, raises the width
alert and fires the inflate path once the counter reaches 3; an at-or-above
measurement resets counter and alert.  The boolean records whether a
corrective inflate request was dispatched. -/
def handle_measurement (s : MonitorState) (length_mm : ℚ) : MonitorState × Bool :=
  if s.is_monitoring = false ∨ s.threshold = none then (s, false)
  else
    match s.threshold with
    | none => (s, false)
    | some thr =>
      if length_mm < thr then
        if 3 ≤ s.trigger_count + 1 then
          trigger_inflate
            { s with trigger_count := s.trigger_count + 1, width_alert_active := true }
        else
          ({ s with trigger_count := s.trigger_count + 1, width_alert_active := true },
            false)
      else ({ s with width_alert_active := false, trigger_count := 0 }, false)

/-- Feed a sequence of millimetre measurements to `_handle_measurement`,
collecting whether each one dispatched an inflate request. -/
def run_measurements : MonitorState → List ℚ → MonitorState × List Bool
  | s, [] => (s, [])
  | s, m :: rest =>
    let step := handle_measurement s m
    let next := run_measurements step.1 rest
    (next.1, step.2 :: next.2)

/-- The arming branch of `ThirdPage.toggle_monitoring` (`main.py` lines
752–765) on a fresh page: numeric threshold accepted, counter reset, no
alert, no inflate button yet. -/
def start_monitoring (thr : ℚ) (configured : Bool) : MonitorState :=
  ⟨true, some thr, 0, false, .absent, configured⟩

/-- Outcome of one attempt of the fetch loop in `get_image_from_url`
(`utils/http.py` lines 50–78). -/
inductive FetchOutcome
  | ok
  | badStatus
  | decodeFailure
  | transportError
deriving Repr, DecidableEq

/-- State of `get_image_from_url`'s `while True` loop after `n` iterations
against the attempt outcomes `attempts`: the index of the successful attempt
once the function has returned, and the `retries` counter — which the source
increments only on transport errors and never compares against
`max_retries`. -/
def get_image_loop (attempts : Nat → FetchOutcome) : Nat → Option Nat × Nat
  | 0 => (none, 0)
  | n + 1 =>
    match get_image_loop attempts n with
    | (some k, retries) => (some k, retries)
    | (none, retries) =>
      match attempts n with
      | .ok => (some n, retries)
      | .transportError => (none, retries + 1)
      | _ => (none, retries)

/-- The dead retry bound of `get_image_from_url`: the `max_retries=10`
parameter that the loop body never consults. -/
def http_max_retries : Nat := 10

theorem lookup_upsertCat_self (l : List (String × CatState)) (k : String) (v : CatState) :
    List.lookup k (upsertCat l k v) = some v := by
  induction l with
  | nil => simp [upsertCat, List.lookup]
  | cons p rest ih =>
    obtain ⟨k', v'⟩ := p
    by_cases hk : k' = k
    · subst hk
      simp [upsertCat, List.lookup]
    · have hne : (k == k') = false := beq_eq_false_iff_ne.mpr (Ne.symm hk)
      simp [upsertCat, hk, List.lookup, hne, ih]

theorem send_locked_error_state (s : NotifierState) (u m : String) (now : ℚ) (ok : Bool) :
    (send_locked s u m now ok).1.error_state = s.error_state := by
  unfold send_locked
  split
  · rfl
  · dsimp only
    split
    · split <;> rfl
    · rfl

theorem notify_error_bumps_category (s : NotifierState)
    (category webhook_url base_message : String) (escalate_after : Nat)
    (now : ℚ) (http_ok : Bool) :
    catStateOf (notify_error s category webhook_url base_message escalate_after now http_ok).1
        category
      = ⟨(catStateOf s category).count + 1, true⟩ := by
  unfold notify_error
  cases h : error_message_for (truncate_message base_message)
      ((catStateOf s category).count + 1) escalate_after with
  | none =>
    simp only [h]
    simp [catStateOf, lookup_upsertCat_self]
  | some m =>
    simp only [h]
    simp [catStateOf, send_locked_error_state, lookup_upsertCat_self]

/-- C10: every `notify_error` call increments the per-category counter by
exactly one and marks the category active, whatever the delivery outcome,
rate-limit verdict or suppression branch — escalation counts calls, not
transmitted messages. -/
theorem notify_error_always_counts (s : NotifierState)
    (category webhook_url base_message : String) (escalate_after : Nat)
    (now : ℚ) (http_ok : Bool) :
    catStateOf (notify_error s category webhook_url base_message escalate_after now http_ok).1
        category
      = ⟨(catStateOf s category).count + 1, true⟩ :=
  notify_error_bumps_category s category webhook_url base_message escalate_after now http_ok

theorem string_append_ne_empty (a b : String) (h : a ≠ "") : a ++ b ≠ "" := by
  intro hc
  apply h
  have hlen : (a ++ b).length = 0 := by rw [hc]; rfl
  rw [String.length_append] at hlen
  have ha : a.length = 0 := by omega
  cases a with
  | mk data =>
    cases data with
    | nil => rfl
    | cons c cs => simp [String.length] at ha

theorem prune_times_length_le (s : NotifierState) (now : ℚ) :
    (prune_times s now).length ≤ s.sent_times.length :=
  (List.dropWhile_sublist _).length_le

theorem send_locked_ok (s : NotifierState) (u m : String) (now : ℚ)
    (hu : u ≠ "") (hm : m ≠ "")
    (hroom : (prune_times s now).length < s.max_messages_per_period) :
    send_locked s u m now true
      = ({ s with sent_times := prune_times s now ++ [now] }, true) := by
  simp [send_locked, hu, hm, hroom]

theorem burst_spec_eq_map (ea : Nat) :
    ∀ (n c : Nat), burst_spec c ea n
      = (List.range n).map (fun k => decide (c + k + 1 = 1 ∨ c + k + 1 = ea)) := by
  intro n
  induction n with
  | zero => intro c; rfl
  | succ n ih =>
    intro c
    have hrhs : (List.range (n + 1)).map (fun k => decide (c + k + 1 = 1 ∨ c + k + 1 = ea))
        = decide (c + 0 + 1 = 1 ∨ c + 0 + 1 = ea)
          :: (List.range n).map
              (fun k => decide (c + (k + 1) + 1 = 1 ∨ c + (k + 1) + 1 = ea)) := by
      rw [List.range_succ_eq_map, List.map_cons, List.map_map]
      rfl
    have hhead : decide (c + 0 + 1 = 1 ∨ c + 0 + 1 = ea)
        = decide (c + 1 = 1 ∨ c + 1 = ea) := by
      rw [show c + 0 + 1 = c + 1 from by omega]
    have htail : (List.range n).map
          (fun k => decide (c + (k + 1) + 1 = 1 ∨ c + (k + 1) + 1 = ea))
        = (List.range n).map
          (fun k => decide (c + 1 + k + 1 = 1 ∨ c + 1 + k + 1 = ea)) := by
      apply List.map_congr_left
      intro a _
      rw [show c + (a + 1) + 1 = c + 1 + a + 1 from by omega]
    rw [hrhs, hhead, htail, ← ih (c + 1)]
    rfl

theorem notify_error_step (s : NotifierState) (category webhook_url base_message : String)
    (ea : Nat) (now : ℚ) (c : Nat)
    (hurl : webhook_url ≠ "") (hmsg : truncate_message base_message ≠ "") (hea : 2 ≤ ea)
    (hmax : s.max_messages_per_period = 20)
    (hc : (catStateOf s category).count = c)
    (hlen : s.sent_times.length + future_sends c ea ≤ 20) :
    (notify_error s category webhook_url base_message ea now true).2
        = decide (c + 1 = 1 ∨ c + 1 = ea)
    ∧ (notify_error s category webhook_url base_message ea now true).1.max_messages_per_period
        = 20
    ∧ (catStateOf (notify_error s category webhook_url base_message ea now true).1
        category).count = c + 1
    ∧ (notify_error s category webhook_url base_message ea now true).1.sent_times.length
        + future_sends (c + 1) ea ≤ 20 := by
  have hcount : catStateOf (notify_error s category webhook_url base_message ea now true).1
      category = ⟨c + 1, true⟩ := by
    have h0 := notify_error_bumps_category s category webhook_url base_message ea now true
    rw [hc] at h0
    exact h0
  have hpr : prune_times
      { s with error_state := upsertCat s.error_state category ⟨c + 1, true⟩ } now
      = prune_times s now := rfl
  have hple : (prune_times s now).length ≤ s.sent_times.length := prune_times_length_le s now
  have hfs1le : future_sends (c + 1) ea ≤ 1 := by
    unfold future_sends
    split_ifs <;> simp_all
  by_cases h1 : c = 0
  · have hmsgfor : error_message_for (truncate_message base_message) (c + 1) ea
        = some (truncate_message base_message) := by
      rw [show c + 1 = 1 from by omega]
      simp [error_message_for]
    have hform : notify_error s category webhook_url base_message ea now true
        = send_locked
            { s with error_state := upsertCat s.error_state category ⟨c + 1, true⟩ }
            webhook_url (truncate_message base_message) now true := by
      unfold notify_error
      rw [hc, hmsgfor]
    have hfs : future_sends c ea = 2 := by
      unfold future_sends
      split_ifs <;> omega
    have hroom : (prune_times
        { s with error_state := upsertCat s.error_state category ⟨c + 1, true⟩ } now).length
        < ({ s with error_state := upsertCat s.error_state category ⟨c + 1, true⟩ } :
            NotifierState).max_messages_per_period := by
      show (prune_times
        { s with error_state := upsertCat s.error_state category ⟨c + 1, true⟩ } now).length
        < s.max_messages_per_period
      rw [hpr]
      omega
    rw [hform, send_locked_ok _ _ _ _ hurl hmsg hroom] at hcount ⊢
    refine ⟨(decide_eq_true (Or.inl (by omega : c + 1 = 1))).symm, hmax, ?_, ?_⟩
    · rw [hcount]
    · show (prune_times
          { s with error_state := upsertCat s.error_state category ⟨c + 1, true⟩ } now
          ++ [now]).length + future_sends (c + 1) ea ≤ 20
      rw [hpr, List.length_append]
      simp only [List.length_cons, List.length_nil]
      omega
  · by_cases h2 : c + 1 = ea
    · have hmsgfor : error_message_for (truncate_message base_message) (c + 1) ea
          = some (truncate_message base_message
              ++ ("（连续" ++ toString (c + 1) ++ "次，请尽快排查）")) := by
        unfold error_message_for
        rw [if_neg (by omega), if_pos ⟨by omega, h2⟩]
      have hform : notify_error s category webhook_url base_message ea now true
          = send_locked
              { s with error_state := upsertCat s.error_state category ⟨c + 1, true⟩ }
              webhook_url
              (truncate_message base_message
                ++ ("（连续" ++ toString (c + 1) ++ "次，请尽快排查）")) now true := by
        unfold notify_error
        rw [hc, hmsgfor]
      have hm2 : truncate_message base_message
          ++ ("（连续" ++ toString (c + 1) ++ "次，请尽快排查）") ≠ "" :=
        string_append_ne_empty _ _ hmsg
      have hfsc : 1 ≤ future_sends c ea := by
        unfold future_sends
        split_ifs <;> omega
      have hroom : (prune_times
          { s with error_state := upsertCat s.error_state category ⟨c + 1, true⟩ } now).length
          < ({ s with error_state := upsertCat s.error_state category ⟨c + 1, true⟩ } :
              NotifierState).max_messages_per_period := by
        show (prune_times
          { s with error_state := upsertCat s.error_state category ⟨c + 1, true⟩ } now).length
          < s.max_messages_per_period
        rw [hpr]
        omega
      rw [hform, send_locked_ok _ _ _ _ hurl hm2 hroom] at hcount ⊢
      refine ⟨(decide_eq_true (Or.inr h2)).symm, hmax, ?_, ?_⟩
      · rw [hcount]
      · show (prune_times
            { s with error_state := upsertCat s.error_state category ⟨c + 1, true⟩ } now
            ++ [now]).length + future_sends (c + 1) ea ≤ 20
        rw [hpr, List.length_append]
        have hfs0 : future_sends (c + 1) ea = 0 := by
          unfold future_sends
          split_ifs <;> simp_all
        simp only [List.length_cons, List.length_nil]
        omega
    · have hmsgfor : error_message_for (truncate_message base_message) (c + 1) ea
          = none := by
        unfold error_message_for
        rw [if_neg (by omega), if_neg (fun h => h2 h.2)]
      have hform : notify_error s category webhook_url base_message ea now true
          = ({ s with error_state := upsertCat s.error_state category ⟨c + 1, true⟩ },
              false) := by
        unfold notify_error
        rw [hc, hmsgfor]
      rw [hform] at hcount ⊢
      have hdec : ¬ (c + 1 = 1 ∨ c + 1 = ea) := fun h =>
        h.elim (fun ha => (by omega : ¬ (c + 1 = 1)) ha) h2
      refine ⟨(decide_eq_false hdec).symm, hmax, ?_, ?_⟩
      · rw [hcount]
      · show s.sent_times.length + future_sends (c + 1) ea ≤ 20
        have hmono : future_sends (c + 1) ea ≤ future_sends c ea := by
          unfold future_sends
          split_ifs <;> simp_all
          omega
        omega

theorem notify_recovery_inactive (s : NotifierState) (category u m : String)
    (t : ℚ) (ok : Bool) (h : (catStateOf s category).active = false) :
    notify_recovery s category u m t ok = (s, false) := by
  unfold notify_recovery
  cases hl : List.lookup category s.error_state with
  | none => rfl
  | some st =>
    have : st.active = false := by simpa [catStateOf, hl] using h
    simp [this]

/-- C7: `notify_recovery` transmits only for a previously active category,
resets that category to `{count := 0, active := false}`, is a no-op returning
`false` on a never-active (or already recovered) category, and therefore a
second consecutive call for the same category never transmits. -/
theorem notify_recovery_idempotent (s : NotifierState) (category u1 m1 u2 m2 : String)
    (t1 t2 : ℚ) (ok1 ok2 : Bool) :
    ((notify_recovery s category u1 m1 t1 ok1).2 = true →
        (catStateOf s category).active = true)
    ∧ ((catStateOf s category).active = false →
        notify_recovery s category u1 m1 t1 ok1 = (s, false))
    ∧ ((catStateOf s category).active = true →
        catStateOf (notify_recovery s category u1 m1 t1 ok1).1 category = ⟨0, false⟩)
    ∧ (notify_recovery (notify_recovery s category u1 m1 t1 ok1).1 category u2 m2 t2 ok2).2
        = false := by
  rcases Bool.eq_false_or_eq_true (catStateOf s category).active with hact | hact
  case inr =>
    have hno := notify_recovery_inactive s category u1 m1 t1 ok1 hact
    refine ⟨?_, fun _ => hno, ?_, ?_⟩
    · intro h
      rw [hno] at h
      exact absurd h (by simp)
    · intro h
      rw [h] at hact
      exact absurd hact (by simp)
    · rw [hno]
      exact congrArg Prod.snd (notify_recovery_inactive s category u2 m2 t2 ok2 hact)
  case inl =>
    obtain ⟨st, hl, hst⟩ : ∃ st, List.lookup category s.error_state = some st
        ∧ st.active = true := by
      cases hl : List.lookup category s.error_state with
      | none => simp [catStateOf, hl] at hact
      | some st =>
        exact ⟨st, rfl, by simpa [catStateOf, hl] using hact⟩
    have h1 : catStateOf (notify_recovery s category u1 m1 t1 ok1).1 category
        = ⟨0, false⟩ := by
      simp [notify_recovery, hl, hst, catStateOf, send_locked_error_state,
        lookup_upsertCat_self]
    refine ⟨fun _ => hact, ?_, fun _ => h1, ?_⟩
    · intro hcontra
      rw [hact] at hcontra
      exact absurd hcontra (by simp)
    · have hinact : (catStateOf (notify_recovery s category u1 m1 t1 ok1).1 category).active
          = false := by rw [h1]
      rw [notify_recovery_inactive _ category u2 m2 t2 ok2 hinact]

/-- Witness for C7 at a concrete state with an active "camera_processing"
category. -/
theorem notify_recovery_idempotent_witness :
    catStateOf (notify_recovery
        ⟨20, 60, [], [("camera_processing", ⟨2, true⟩)]⟩
        "camera_processing" "hook" "msg" 0 true).1 "camera_processing" = ⟨0, false⟩
    ∧ (notify_recovery (notify_recovery
        ⟨20, 60, [], [("camera_processing", ⟨2, true⟩)]⟩
        "camera_processing" "hook" "msg" 0 true).1
        "camera_processing" "hook" "msg" 1 true).2 = false :=
  ⟨(notify_recovery_idempotent ⟨20, 60, [], [("camera_processing", ⟨2, true⟩)]⟩
      "camera_processing" "hook" "msg" "hook" "msg" 0 1 true true).2.2.1 (by decide),
   (notify_recovery_idempotent ⟨20, 60, [], [("camera_processing", ⟨2, true⟩)]⟩
      "camera_processing" "hook" "msg" "hook" "msg" 0 1 true true).2.2.2⟩

theorem notify_error_run_spec (category webhook_url base_message : String) (ea : Nat)
    (hurl : webhook_url ≠ "") (hmsg : truncate_message base_message ≠ "") (hea : 2 ≤ ea) :
    ∀ (oracle : List (ℚ × Bool)) (s : NotifierState) (c : Nat),
      (∀ p ∈ oracle, p.2 = true) →
      s.max_messages_per_period = 20 →
      (catStateOf s category).count = c →
      s.sent_times.length + future_sends c ea ≤ 20 →
      (notify_error_run category webhook_url base_message ea s oracle).2
        = burst_spec c ea oracle.length := by
  intro oracle
  induction oracle with
  | nil =>
    intro s c _ _ _ _
    rfl
  | cons p rest ih =>
    rintro s c hok hmax hc hlen
    obtain ⟨now, ok⟩ := p
    have hoktrue : ok = true := hok (now, ok) (List.mem_cons_self _ _)
    subst hoktrue
    obtain ⟨hres, hmax', hc', hlen'⟩ :=
      notify_error_step s category webhook_url base_message ea now c hurl hmsg hea hmax hc hlen
    have hrest : (notify_error_run category webhook_url base_message ea
          (notify_error s category webhook_url base_message ea now true).1 rest).2
        = burst_spec (c + 1) ea rest.length :=
      ih _ (c + 1) (fun q hq => hok q (List.mem_cons_of_mem _ hq)) hmax' hc' hlen'
    show ((notify_error s category webhook_url base_message ea now true).2
        :: (notify_error_run category webhook_url base_message ea
            (notify_error s category webhook_url base_message ea now true).1 rest).2)
      = burst_spec c ea ((now, true) :: rest).length
    rw [hres, hrest]
    rfl

/-- C5: for a burst of `notify_error` calls on one category against the fresh
default manager, with every webhook delivery succeeding and an escalation
threshold of at least 2, the k-th call transmits (returns `true`) exactly when
`k = 1` or `k = escalate_after` — the escalation call carrying the escalated
wording — and every other call transmits nothing and returns `false`; in
particular a burst of `N + 5 = 25` calls with the default `escalate_after = 3`
transmits exactly 2 of the category's messages. -/
theorem notify_error_first_and_escalation (category webhook_url base_message : String)
    (ea : Nat) (oracle : List (ℚ × Bool))
    (hurl : webhook_url ≠ "") (hmsg : truncate_message base_message ≠ "")
    (hea : 2 ≤ ea) (hok : ∀ p ∈ oracle, p.2 = true) :
    (notify_error_run category webhook_url base_message ea initialNotifier oracle).2
        = (List.range oracle.length).map (fun k => decide (k + 1 = 1 ∨ k + 1 = ea))
    ∧ error_message_for (truncate_message base_message) ea ea
        = some (truncate_message base_message ++ ("（连续" ++ toString ea ++ "次，请尽快排查）"))
    ∧ (ea = 3 → oracle.length = 25 →
        ((notify_error_run category webhook_url base_message ea
            initialNotifier oracle).2.count true) = 2) := by
  have hlen0 : (initialNotifier).sent_times.length + future_sends 0 ea ≤ 20 := by
    show 0 + future_sends 0 ea ≤ 20
    unfold future_sends
    split_ifs <;> simp_all
  have hrun := notify_error_run_spec category webhook_url base_message ea hurl hmsg hea
    oracle initialNotifier 0 hok rfl rfl hlen0
  have hzero : (List.range oracle.length).map
        (fun k => decide (0 + k + 1 = 1 ∨ 0 + k + 1 = ea))
      = (List.range oracle.length).map (fun k => decide (k + 1 = 1 ∨ k + 1 = ea)) := by
    apply List.map_congr_left
    intro a _
    rw [show 0 + a + 1 = a + 1 from by omega]
  have hmain : (notify_error_run category webhook_url base_message ea
        initialNotifier oracle).2
      = (List.range oracle.length).map (fun k => decide (k + 1 = 1 ∨ k + 1 = ea)) := by
    rw [hrun, burst_spec_eq_map, hzero]
  refine ⟨hmain, ?_, ?_⟩
  · unfold error_message_for
    rw [if_neg (by omega), if_pos ⟨by omega, rfl⟩]
  · intro h3 h25
    rw [hmain, h3, h25]
    decide

/-- Witness for C5: a 25-call burst with the defaults transmits exactly two
messages (calls 1 and 3). -/
theorem notify_error_first_and_escalation_witness :
    (notify_error_run "width_low" "hook" "msg" 3 initialNotifier
        (List.replicate 25 ((0 : ℚ), true))).2.count true = 2 :=
  (notify_error_first_and_escalation "width_low" "hook" "msg" 3
      (List.replicate 25 ((0 : ℚ), true)) (by decide) (by decide) (by decide)
      (by decide)).2.2 rfl (by decide)

theorem send_locked_period (s : NotifierState) (u m : String) (now : ℚ) (ok : Bool) :
    (send_locked s u m now ok).1.period_seconds = s.period_seconds := by
  unfold send_locked
  split
  · rfl
  · dsimp only
    split
    · split <;> rfl
    · rfl

theorem send_locked_stopped (s : NotifierState) (u m : String) (now : ℚ) (ok : Bool)
    (hnem : ¬ (u = "" ∨ m = ""))
    (hfull : ¬ ((prune_times s now).length < s.max_messages_per_period)) :
    send_locked s u m now ok = ({ s with sent_times := prune_times s now }, false) := by
  unfold send_locked
  rw [if_neg hnem]
  dsimp only
  rw [if_neg hfull]

theorem send_locked_failed_delivery (s : NotifierState) (u m : String) (now : ℚ)
    (hnem : ¬ (u = "" ∨ m = ""))
    (hroom : (prune_times s now).length < s.max_messages_per_period) :
    send_locked s u m now false = ({ s with sent_times := prune_times s now }, false) := by
  unfold send_locked
  rw [if_neg hnem]
  dsimp only
  rw [if_pos hroom]
  simp

theorem send_run_cons (s : NotifierState) (a : SendAttempt) (rest : List SendAttempt) :
    send_run s (a :: rest)
      = ((send_run (send_locked s a.webhook_url a.message a.now a.http_ok).1 rest).1,
         (send_locked s a.webhook_url a.message a.now a.http_ok).2
           :: (send_run (send_locked s a.webhook_url a.message a.now a.http_ok).1 rest).2) :=
  rfl

theorem transmitted_times_cons (a : SendAttempt) (rest : List SendAttempt)
    (r : Bool) (rs : List Bool) :
    transmitted_times (a :: rest) (r :: rs)
      = (if r = true then [a.now] else []) ++ transmitted_times rest rs := by
  cases r <;> simp [transmitted_times, List.zip_cons_cons, List.filter_cons]

theorem window_count_append (x period : ℚ) (l1 l2 : List ℚ) :
    window_count x period (l1 ++ l2)
      = window_count x period l1 + window_count x period l2 := by
  unfold window_count
  rw [List.filter_append, List.length_append]

theorem send_run_window_out (x : ℚ) :
    ∀ (attempts : List SendAttempt) (s : NotifierState),
      (∀ a ∈ attempts, x + s.period_seconds < a.now) →
      window_count x s.period_seconds
        (transmitted_times attempts (send_run s attempts).2) = 0 := by
  intro attempts
  induction attempts with
  | nil =>
    intro s _
    rfl
  | cons a rest ih =>
    intro s hfar
    rw [send_run_cons, transmitted_times_cons, window_count_append]
    have h1 : window_count x s.period_seconds
        (if (send_locked s a.webhook_url a.message a.now a.http_ok).2 = true
          then [a.now] else []) = 0 := by
      split
      · have hnle : ¬ (a.now ≤ x + s.period_seconds) :=
          not_le.mpr (hfar a (List.mem_cons_self _ _))
        simp [window_count, hnle]
      · rfl
    have h2 : window_count x s.period_seconds
        (transmitted_times rest
          (send_run (send_locked s a.webhook_url a.message a.now a.http_ok).1 rest).2)
        = 0 := by
      have hperiod := send_locked_period s a.webhook_url a.message a.now a.http_ok
      have hres := ih (send_locked s a.webhook_url a.message a.now a.http_ok).1
        (by
          intro b hb
          rw [hperiod]
          exact hfar b (List.mem_cons_of_mem _ hb))
      rw [hperiod] at hres
      exact hres
    rw [h1, h2]

theorem send_run_window_go (x : ℚ) :
    ∀ (attempts : List SendAttempt) (s : NotifierState),
      (attempts.map SendAttempt.now).Pairwise (· ≤ ·) →
      s.sent_times.Pairwise (· ≤ ·) →
      (∀ t ∈ s.sent_times, ∀ a ∈ attempts, t ≤ a.now) →
      s.sent_times.length ≤ s.max_messages_per_period →
      window_count x s.period_seconds
          (transmitted_times attempts (send_run s attempts).2)
        + (s.sent_times.filter (fun t => decide (x ≤ t))).length
        ≤ s.max_messages_per_period := by
  intro attempts
  induction attempts with
  | nil =>
    intro s _ _ _ hN
    have h1 : (s.sent_times.filter (fun t => decide (x ≤ t))).length ≤ s.sent_times.length :=
      List.length_filter_le _ _
    have h0 : window_count x s.period_seconds (transmitted_times [] (send_run s []).2) = 0 :=
      rfl
    omega
  | cons a rest ih =>
    intro s hmono hqsort hqle hN
    have hmonorest : (rest.map SendAttempt.now).Pairwise (· ≤ ·) :=
      (List.pairwise_cons.mp hmono).2
    have hafuture : ∀ b ∈ rest, a.now ≤ b.now := by
      intro b hb
      exact (List.pairwise_cons.mp hmono).1 b.now (List.mem_map_of_mem _ hb)
    by_cases hempty : a.webhook_url = "" ∨ a.message = ""
    · have hstep : send_locked s a.webhook_url a.message a.now a.http_ok = (s, false) := by
        unfold send_locked
        rw [if_pos hempty]
      rw [send_run_cons, hstep,
        show ((s, false) : NotifierState × Bool).2 = false from rfl,
        show ((s, false) : NotifierState × Bool).1 = s from rfl,
        transmitted_times_cons, window_count_append]
      have hz : window_count x s.period_seconds (if false = true then [a.now] else []) = 0 := by
        simp [window_count]
      have hih := ih s hmonorest hqsort
        (fun t ht b hb => hqle t ht b (List.mem_cons_of_mem _ hb)) hN
      omega
    · push_neg at hempty
      obtain ⟨hu, hm⟩ := hempty
      have hsubp : List.Sublist (prune_times s a.now) s.sent_times :=
        List.dropWhile_sublist _
      have hpsort : (prune_times s a.now).Pairwise (· ≤ ·) := hqsort.sublist hsubp
      have hplen : (prune_times s a.now).length ≤ s.sent_times.length := hsubp.length_le
      have hpmem : ∀ t ∈ prune_times s a.now, t ∈ s.sent_times := fun t ht => hsubp.subset ht
      by_cases hfar : x + s.period_seconds < a.now
      · have hallfar : ∀ b ∈ (a :: rest), x + s.period_seconds < b.now := by
          intro b hb
          rcases List.mem_cons.mp hb with hb0 | hb'
          · rw [hb0]
            exact hfar
          · exact lt_of_lt_of_le hfar (hafuture b hb')
        have hz := send_run_window_out x (a :: rest) s hallfar
        have h1 : (s.sent_times.filter (fun t => decide (x ≤ t))).length
            ≤ s.sent_times.length := List.length_filter_le _ _
        omega
      · push_neg at hfar
        have hkey : ((prune_times s a.now).filter (fun t => decide (x ≤ t))).length
            = (s.sent_times.filter (fun t => decide (x ≤ t))).length := by
          conv_rhs =>
            rw [← List.takeWhile_append_dropWhile
              (fun t => decide (s.period_seconds < a.now - t)) s.sent_times]
          rw [List.filter_append, List.length_append]
          have hdropped : ((s.sent_times.takeWhile
              (fun t => decide (s.period_seconds < a.now - t))).filter
                (fun t => decide (x ≤ t))) = [] := by
            apply List.filter_eq_nil_iff.mpr
            intro t ht
            have hcond := List.mem_takeWhile_imp ht
            have hlt : s.period_seconds < a.now - t := of_decide_eq_true hcond
            have hxt : ¬ (x ≤ t) := by
              intro hxle
              linarith
            simp [hxt]
          rw [hdropped]
          simp [prune_times]
        rcases Classical.em (a.http_ok = true
            ∧ (prune_times s a.now).length < s.max_messages_per_period) with hsend | hnosend
        · obtain ⟨hok, hcans⟩ := hsend
          have hstep : send_locked s a.webhook_url a.message a.now a.http_ok
              = ({ s with sent_times := prune_times s a.now ++ [a.now] }, true) := by
            rw [hok]
            exact send_locked_ok s _ _ _ hu hm hcans
          rw [send_run_cons, hstep,
            show (({ s with sent_times := prune_times s a.now ++ [a.now] }, true)
              : NotifierState × Bool).2 = true from rfl,
            show (({ s with sent_times := prune_times s a.now ++ [a.now] }, true)
              : NotifierState × Bool).1
              = { s with sent_times := prune_times s a.now ++ [a.now] } from rfl,
            transmitted_times_cons, window_count_append]
          have hsort2 : (prune_times s a.now ++ [a.now]).Pairwise (· ≤ ·) := by
            rw [List.pairwise_append]
            refine ⟨hpsort, List.pairwise_singleton _ _, ?_⟩
            intro t ht b hb
            rw [List.mem_singleton.mp hb]
            exact hqle t (hpmem t ht) a (List.mem_cons_self _ _)
          have hle2 : ∀ t ∈ prune_times s a.now ++ [a.now], ∀ b ∈ rest, t ≤ b.now := by
            intro t ht b hb
            rcases List.mem_append.mp ht with h | h
            · exact hqle t (hpmem t h) b (List.mem_cons_of_mem _ hb)
            · rw [List.mem_singleton.mp h]
              exact hafuture b hb
          have hlen2 : (prune_times s a.now ++ [a.now]).length ≤ s.max_messages_per_period := by
            rw [List.length_append]
            simp only [List.length_cons, List.length_nil]
            omega
          have hih : window_count x s.period_seconds
              (transmitted_times rest
                (send_run { s with sent_times := prune_times s a.now ++ [a.now] } rest).2)
              + (((prune_times s a.now ++ [a.now]).filter
                  (fun t => decide (x ≤ t))).length)
              ≤ s.max_messages_per_period :=
            ih { s with sent_times := prune_times s a.now ++ [a.now] }
              hmonorest hsort2 hle2 hlen2
          have hfsplit : ((prune_times s a.now ++ [a.now]).filter
                (fun t => decide (x ≤ t))).length
              = ((prune_times s a.now).filter (fun t => decide (x ≤ t))).length
                + (if x ≤ a.now then 1 else 0) := by
            rw [List.filter_append, List.length_append]
            by_cases hx : x ≤ a.now
            · simp [hx]
            · simp [hx]
          have hw1 : window_count x s.period_seconds (if true = true then [a.now] else [])
              = (if x ≤ a.now then 1 else 0) := by
            by_cases hx : x ≤ a.now
            · simp [window_count, hx, hfar]
            · simp [window_count, hx]
          rw [hw1, ← hkey]
          rw [hfsplit] at hih
          omega
        · have hstep : send_locked s a.webhook_url a.message a.now a.http_ok
              = ({ s with sent_times := prune_times s a.now }, false) := by
            by_cases hcans : (prune_times s a.now).length < s.max_messages_per_period
            · have hokf : a.http_ok = false := by
                cases hob : a.http_ok
                · rfl
                · exact absurd ⟨hob, hcans⟩ hnosend
              rw [hokf]
              exact send_locked_failed_delivery s _ _ _
                (by
                  push_neg
                  exact ⟨hu, hm⟩) hcans
            · exact send_locked_stopped s _ _ _ _
                (by
                  push_neg
                  exact ⟨hu, hm⟩) hcans
          rw [send_run_cons, hstep,
            show (({ s with sent_times := prune_times s a.now }, false)
              : NotifierState × Bool).2 = false from rfl,
            show (({ s with sent_times := prune_times s a.now }, false)
              : NotifierState × Bool).1
              = { s with sent_times := prune_times s a.now } from rfl,
            transmitted_times_cons, window_count_append]
          have hz : window_count x s.period_seconds
              (if false = true then [a.now] else []) = 0 := by
            simp [window_count]
          have hih : window_count x s.period_seconds
              (transmitted_times rest
                (send_run { s with sent_times := prune_times s a.now } rest).2)
              + (((prune_times s a.now).filter (fun t => decide (x ≤ t))).length)
              ≤ s.max_messages_per_period :=
            ih { s with sent_times := prune_times s a.now }
              hmonorest hpsort
              (fun t ht b hb => hqle t (hpmem t ht) b (List.mem_cons_of_mem _ hb))
              (le_trans hplen hN)
          rw [hz, ← hkey]
          omega

/-- C6: for every sequence of send attempts (all categories reach the same
`_send_locked`) with nondecreasing timestamps, at most
`max_messages_per_period = 20` messages are transmitted inside any rolling
`period_seconds = 60` window of the default manager; moreover an attempt made
while the pruned timestamp queue is already at the cap returns `false` and
leaves only the pruned queue behind — nothing is buffered. -/
theorem global_rate_limit (attempts : List SendAttempt) (x : ℚ)
    (hmono : (attempts.map SendAttempt.now).Pairwise (· ≤ ·)) :
    window_count x 60
        (transmitted_times attempts (send_run initialNotifier attempts).2) ≤ 20
    ∧ (∀ (s : NotifierState) (u m : String) (now : ℚ) (ok : Bool),
        ¬ (u = "" ∨ m = "") →
        ¬ ((prune_times s now).length < s.max_messages_per_period) →
        send_locked s u m now ok = ({ s with sent_times := prune_times s now }, false)) := by
  constructor
  · have h := send_run_window_go x attempts initialNotifier hmono
      (by simp [initialNotifier]) (by simp [initialNotifier]) (by simp [initialNotifier])
    simpa [initialNotifier, window_count] using h
  · exact fun s u m now ok hnem hfull => send_locked_stopped s u m now ok hnem hfull

/-- Witness for C6 at a concrete burst of three identical attempts. -/
theorem global_rate_limit_witness :
    window_count 0 60 (transmitted_times
        (List.replicate 3 ⟨"hook", "msg", 0, true⟩)
        (send_run initialNotifier (List.replicate 3 ⟨"hook", "msg", 0, true⟩)).2) ≤ 20 :=
  (global_rate_limit (List.replicate 3 ⟨"hook", "msg", 0, true⟩) 0 (by decide)).1

/-- C3 (code bug): against a camera endpoint raising a transport error on
every attempt, `get_image_from_url` never returns and its `retries` counter
grows past any bound — after `n` iterations the loop is still running with
`retries = n`, in particular beyond the dead `max_retries = 10`; no
`CameraProcessingError` is ever surfaced and the function's own
"reached max retries" exit at `utils/http.py:78` is unreachable. -/
theorem get_image_retries_unbounded :
    (∀ n, get_image_loop (fun _ => FetchOutcome.transportError) n = (none, n))
    ∧ http_max_retries
        < (get_image_loop (fun _ => FetchOutcome.transportError)
            (http_max_retries + 1)).2 := by
  have hmain : ∀ n, get_image_loop (fun _ => FetchOutcome.transportError) n = (none, n) := by
    intro n
    induction n with
    | zero => rfl
    | succ n ih => simp [get_image_loop, ih]
  refine ⟨hmain, ?_⟩
  rw [hmain]
  show http_max_retries < http_max_retries + 1
  omega

/-- C8 counterexample: at width 30 the code's margin is `int(30*0.05) = 1`,
not `⌈30·0.05⌉ = 2`; the bright column 1 is kept by the code although the
claimed interval `[⌈0.05·w⌉, w − ⌈0.05·w⌉]` discards it. -/
theorem margin_filter_ceil_counterexample :
    marginFilter 30 [1] = [1]
    ∧ (1 : Nat) < ceilMargin 30
    ∧ marginFilterCeil 30 [1] = [] := by
  decide

/-- C8 (amended): the margin filter keeps exactly the bright-pixel indices in
the closed interval `[⌊0.05·w⌋, w − ⌊0.05·w⌋]` — `int()` truncates instead of
rounding up — and a run lying entirely outside that interval is treated as
absent. -/
theorem margin_filter_keeps_floor_interval (width : Nat) (idx : List Nat) :
    marginOf width = width / 20
    ∧ (∀ i, i ∈ marginFilter width idx
        ↔ i ∈ idx ∧ marginOf width ≤ i ∧ i ≤ width - marginOf width)
    ∧ ((∀ i ∈ idx, i < marginOf width ∨ width - marginOf width < i) →
        marginFilter width idx = []) := by
  refine ⟨rfl, ?_, ?_⟩
  · intro i
    simp [marginFilter, List.mem_filter]
  · intro h
    apply List.filter_eq_nil_iff.mpr
    intro i hi
    have hcase := h i hi
    simp only [decide_eq_true_eq]
    omega

/-- Witness for C8's amended statement: a row whose bright pixels all sit in
the excluded edge bands of width 30 yields an empty filter result. -/
theorem margin_filter_keeps_floor_interval_witness :
    marginFilter 30 [0, 30, 100] = [] :=
  (margin_filter_keeps_floor_interval 30 [0, 30, 100]).2.2 (by decide)

/-- C9: the nominal scan row used by the pipeline equals
`round(ratio · (cropped_height − 1))` where the ratio goes through exactly the
`update_detection_line_ratio` clamp of `main.py`: in-range ratios pass
through, out-of-range ones clamp to the interval ends, and an unspecified or
invalid ratio is replaced by the default `0.6`. -/
theorem nominal_row_resolution (h : Nat) (ratio : ℚ) :
    nominalScanRow h (some ratio)
        = round (update_detection_line_ratio (some ratio) * ((h : ℚ) - 1))
    ∧ nominalScanRow h none = round ((0.6 : ℚ) * ((h : ℚ) - 1))
    ∧ (0 ≤ ratio → ratio ≤ 1 → resolveLineRatio (some ratio) = ratio)
    ∧ (ratio < 0 → resolveLineRatio (some ratio) = 0)
    ∧ (1 < ratio → resolveLineRatio (some ratio) = 1)
    ∧ resolveLineRatio none = update_detection_line_ratio none := by
  refine ⟨rfl, rfl, ?_, ?_, ?_, ?_⟩
  · intro h0 h1
    show max 0 (min 1 ratio) = ratio
    rw [min_eq_right h1, max_eq_right h0]
  · intro hlt
    show max 0 (min 1 ratio) = 0
    rw [min_eq_right (by linarith), max_eq_left (by linarith)]
  · intro hgt
    show max 0 (min 1 ratio) = 1
    rw [min_eq_left (by linarith)]
    norm_num
  · show (0.6 : ℚ) = max 0 (min 1 (0.6 : ℚ))
    norm_num

/-- Witness for C9 at height 100 and a valid in-range ratio. -/
theorem nominal_row_resolution_witness :
    resolveLineRatio (some ((3 : ℚ)/10)) = (3 : ℚ)/10 :=
  (nominal_row_resolution 100 ((3 : ℚ)/10)).2.2.1 (by norm_num) (by norm_num)

/-- C2: with monitoring armed at threshold `thr` and the inflator configured,
the measurement sequence [below, below, at-or-above, below, below, below]
dispatches exactly one corrective inflate request, and only at the sixth
measurement — the third consecutive below-threshold one. -/
theorem debounce_single_inflate (thr m1 m2 m3 m4 m5 m6 : ℚ)
    (h1 : m1 < thr) (h2 : m2 < thr) (h3 : thr ≤ m3)
    (h4 : m4 < thr) (h5 : m5 < thr) (h6 : m6 < thr) :
    (run_measurements (start_monitoring thr true) [m1, m2, m3, m4, m5, m6]).2
      = [false, false, false, false, false, true] := by
  have h3' : ¬ (m3 < thr) := not_lt.mpr h3
  simp [run_measurements, handle_measurement, start_monitoring, trigger_inflate,
    handle_inflate, h1, h2, h3', h4, h5, h6]

/-- Witness for C2 at threshold 12 with measurements 10, 10, 13, 10, 10, 10. -/
theorem debounce_single_inflate_witness :
    (run_measurements (start_monitoring 12 true) [10, 10, 13, 10, 10, 10]).2
      = [false, false, false, false, false, true] :=
  debounce_single_inflate 12 10 10 13 10 10 10 (by norm_num) (by norm_num)
    (by norm_num) (by norm_num) (by norm_num) (by norm_num)

theorem rowSearchOrder_mem (height nominal r : Nat) (hn : nominal < height)
    (hr : r < height) : r ∈ rowSearchOrder height nominal := by
  unfold rowSearchOrder
  by_cases heq : r = nominal
  · rw [heq]
    exact List.mem_cons_self _ _
  · apply List.mem_cons_of_mem
    rw [List.mem_flatMap]
    rcases Nat.lt_or_ge nominal r with hlt | hge
    · refine ⟨r - nominal - 1, ?_, ?_⟩
      · rw [List.mem_range]
        omega
      · rw [List.mem_append]
        left
        rw [show nominal + (r - nominal - 1 + 1) = r from by omega, if_pos hr]
        exact List.mem_singleton.mpr rfl
    · have hlt2 : r < nominal := by omega
      refine ⟨nominal - r - 1, ?_, ?_⟩
      · rw [List.mem_range]
        omega
      · rw [List.mem_append]
        right
        rw [if_pos (by omega : nominal - r - 1 + 1 ≤ nominal),
          show nominal - (nominal - r - 1 + 1) = r from by omega]
        exact List.mem_singleton.mpr rfl

theorem rowSearchOrder_lt (height nominal q : Nat) (hn : nominal < height)
    (hq : q ∈ rowSearchOrder height nominal) : q < height := by
  unfold rowSearchOrder at hq
  rcases List.mem_cons.mp hq with h | h
  · rw [h]
    exact hn
  · rw [List.mem_flatMap] at h
    obtain ⟨d, _, hmem⟩ := h
    rw [List.mem_append] at hmem
    rcases hmem with h1 | h1
    · by_cases hc : nominal + (d + 1) < height
      · rw [if_pos hc, List.mem_singleton] at h1
        omega
      · rw [if_neg hc] at h1
        exact absurd h1 (List.not_mem_nil _)
    · by_cases hc : d + 1 ≤ nominal
      · rw [if_pos hc, List.mem_singleton] at h1
        omega
      · rw [if_neg hc] at h1
        exact absurd h1 (List.not_mem_nil _)

theorem clampRow_lt (height : Nat) (nominal : Int) (hh : 0 < height) :
    clampRow height nominal < height := by
  unfold clampRow
  omega

theorem findSome?_of_unique {α β : Type} (l : List α) (f : α → Option β)
    (r : α) (v : β) (hmem : r ∈ l) (hr : f r = some v)
    (hother : ∀ x ∈ l, x ≠ r → f x = none) :
    l.findSome? f = some v := by
  induction l with
  | nil => exact absurd hmem (List.not_mem_nil _)
  | cons a rest ih =>
    rw [List.findSome?_cons]
    by_cases ha : a = r
    · rw [ha, hr]
    · rw [hother a (List.mem_cons_self _ _) ha]
      apply ih
      · rcases List.mem_cons.mp hmem with h | h
        · exact absurd h.symm ha
        · exact h
      · exact fun x hx => hother x (List.mem_cons_of_mem _ hx)

theorem splitRuns_range' : ∀ (len s : Nat),
    splitRuns (List.range' s (len + 1)) = [List.range' s (len + 1)] := by
  intro len
  induction len with
  | zero =>
    intro s
    rw [List.range'_one]
    rfl
  | succ n ih =>
    intro s
    have ihs := ih (s + 1)
    rw [List.range'_succ] at ihs
    rw [List.range'_succ, List.range'_succ]
    show splitRuns (s :: (s + 1) :: List.range' (s + 1 + 1) n)
      = [s :: (s + 1) :: List.range' (s + 1 + 1) n]
    simp only [splitRuns]
    rw [ihs]
    simp [show s + 1 - s ≤ 1 from by omega]

theorem range'_getLastD : ∀ (len s d : Nat),
    (List.range' s (len + 1)).getLastD d = s + len := by
  intro len
  induction len with
  | zero =>
    intro s d
    rw [List.range'_one]
    rfl
  | succ n ih =>
    intro s d
    rw [List.range'_succ, List.getLastD_cons, ih (s + 1) s]
    omega

theorem locateOnRow_of_empty (width : Nat) (row : List Bool)
    (h : marginFilter width (brightIndices row) = []) :
    locateOnRow width row = none := by
  unfold locateOnRow
  rw [h]
  rfl

theorem locateOnRow_of_run (width s e : Nat) (row : List Bool)
    (hms : marginOf width ≤ s) (hse : s ≤ e) (hew : e ≤ width - marginOf width)
    (hrow : brightIndices row = List.range' s (e + 1 - s)) :
    locateOnRow width row = some (s, e) := by
  have hlen : e + 1 - s = (e - s) + 1 := by omega
  have hfilter : marginFilter width (brightIndices row) = List.range' s (e + 1 - s) := by
    rw [hrow]
    apply List.filter_eq_self.mpr
    intro i hi
    rw [List.mem_range'_1] at hi
    simp only [decide_eq_true_eq]
    omega
  have hhead : (List.range' s (e - s + 1)).headD 0 = s := by
    rw [List.range'_succ]
    rfl
  have hlast : (List.range' s (e - s + 1)).getLastD 0 = e := by
    rw [range'_getLastD]
    omega
  unfold locateOnRow
  rw [hfilter, hlen, splitRuns_range']
  show some ((List.range' s (e - s + 1)).headD 0, (List.range' s (e - s + 1)).getLastD 0)
      = some (s, e)
  rw [hhead, hlast]

/-- C1: for a binary frame whose only bright pixels form the single run
`[s, e]` on row `r`, entirely inside the code's edge margin, the spec-modelled
Segment Locator returns exactly that run and that row for every nominal row,
with `stop - start + 1` equal to the run's length — the outward search order
`nominal, +1, -1, +2, -2, …` visits every row of the frame without
wrapping. -/
theorem locate_unique_run (f : Frame) (nominal : Int) (r s e : Nat)
    (_hwf : ∀ row ∈ f.rows, row.length = f.width)
    (hr : r < f.rows.length)
    (hms : marginOf f.width ≤ s) (hse : s ≤ e)
    (hew : e ≤ f.width - marginOf f.width)
    (hrow : brightIndices (f.rows.getD r []) = List.range' s (e + 1 - s))
    (hdark : ∀ i < f.rows.length, i ≠ r → brightIndices (f.rows.getD i []) = []) :
    locate f nominal = some ⟨s, e, r⟩
    ∧ e - s + 1 = (brightIndices (f.rows.getD r [])).length := by
  have hh : 0 < f.rows.length := Nat.lt_of_le_of_lt (Nat.zero_le r) hr
  have hclamp : clampRow f.rows.length nominal < f.rows.length := clampRow_lt _ _ hh
  constructor
  · unfold locate
    refine findSome?_of_unique _ _ r (LocateResult.mk s e r) ?_ ?_ ?_
    · exact rowSearchOrder_mem _ _ _ hclamp hr
    · rw [locateOnRow_of_run f.width s e _ hms hse hew hrow]
    · intro x hx hxr
      have hxlt : x < f.rows.length := rowSearchOrder_lt _ _ _ hclamp hx
      rw [locateOnRow_of_empty _ _ (by rw [hdark x hxlt hxr]; rfl)]
  · rw [hrow, List.length_range']
    omega

/-- Witness for C1: a 4-row frame of width 20 whose single bright run spans
columns 3–7 of row 2 is located from nominal row 0. -/
theorem locate_unique_run_witness :
    locate ⟨20, [List.replicate 20 false, List.replicate 20 false,
        (List.range 20).map (fun i => decide (3 ≤ i ∧ i ≤ 7)),
        List.replicate 20 false]⟩ 0
      = some ⟨3, 7, 2⟩ :=
  (locate_unique_run ⟨20, [List.replicate 20 false, List.replicate 20 false,
      (List.range 20).map (fun i => decide (3 ≤ i ∧ i ≤ 7)),
      List.replicate 20 false]⟩ 0 2 3 7 (by decide) (by decide) (by decide) (by decide)
    (by decide) (by decide) (by decide)).1

/-- C4: when no bright pixel survives the margin filter on any row of the
cropped, binarized frame, the spec-modelled locate fails (`NoSegmentFound`)
and the pipeline does not propagate an error: `measureFrame` still returns a
Measurement, with `pixel_length = 0`, an overlay frame annotated with a
status banner — and `ThirdPage._update_data_loop` turns that zero length into
a status line and keeps looping. -/
theorem measure_degrades (raw : List (List Nat)) (width : Nat) (ratio : Option ℚ)
    (rate : ℚ)
    (hfail : ∀ i < (binarize (cropMiddle raw)).length,
        marginFilter width (brightIndices ((binarize (cropMiddle raw)).getD i [])) = []) :
    locate ⟨width, binarize (cropMiddle raw)⟩
        (nominalScanRow (binarize (cropMiddle raw)).length ratio) = none
    ∧ (measureFrame raw width ratio).pixel_length = 0
    ∧ (measureFrame raw width ratio).status_banner.isSome = true
    ∧ update_data_step (Except.ok (measureFrame raw width ratio).pixel_length) rate
        = LoopAction.statusWait "未检测到白色区域" := by
  have hnone : locate ⟨width, binarize (cropMiddle raw)⟩
      (nominalScanRow (binarize (cropMiddle raw)).length ratio) = none := by
    unfold locate
    apply List.findSome?_eq_none_iff.mpr
    intro q _
    by_cases hlt : q < (binarize (cropMiddle raw)).length
    · rw [locateOnRow_of_empty _ _ (hfail q hlt)]
    · have hq : (binarize (cropMiddle raw)).getD q [] = [] :=
        List.getD_eq_default _ _ (by omega)
      rw [locateOnRow_of_empty _ _ (by rw [hq]; rfl)]
  have hpx : (measureFrame raw width ratio).pixel_length = 0 := by
    unfold measureFrame
    rw [hnone]
  refine ⟨hnone, hpx, ?_, ?_⟩
  · unfold measureFrame
    rw [hnone]
    rfl
  · rw [hpx]
    rfl

/-- Witness for C4 on an all-dark 4×4 frame. -/
theorem measure_degrades_witness :
    (measureFrame (List.replicate 4 (List.replicate 4 0)) 4 none).pixel_length = 0 :=
  (measure_degrades (List.replicate 4 (List.replicate 4 0)) 4 none 1 (by decide)).2.1
